import Mathlib

/-
  Shallow embedding of the arc authorization core:
    - src/internal/types/user/user.go   (User entity, CanAccessIndex, GetPatch)
    - src/plugins/es/middleware.go      (categorize, getIndexName, matchKeywords,
                                         getOp, validateACL, validateOp, validateIndices)
  Strings are modelled as Lean Strings; Go string byte indexing coincides with
  character indexing on the ASCII inputs exercised here.  the Go regexp package
  (RE2) is modelled by a small derivative-based engine over the syntax subset
  the stored patterns use; a syntactically invalid pattern yields an error,
  exactly as regexp.MatchString does.
-/

namespace Arc

instance {ε α : Type} [DecidableEq ε] [DecidableEq α] : DecidableEq (Except ε α) := fun x y =>
  match x, y with
  | .error a, .error b =>
    if h : a = b then .isTrue (by rw [h]) else .isFalse (by intro he; cases he; exact h rfl)
  | .ok a, .ok b =>
    if h : a = b then .isTrue (by rw [h]) else .isFalse (by intro he; cases he; exact h rfl)
  | .error _, .ok _ => .isFalse (by intro he; cases he)
  | .ok _, .error _ => .isFalse (by intro he; cases he)

/-! ## String utilities mirroring the Go strings package -/

/-- Go unicode.IsSpace restricted to the ASCII range (space, tab, newline,
vertical tab, form feed, carriage return). -/
def goIsSpace (c : Char) : Bool :=
  c = ' ' || c = '\t' || c = '\n' || c = Char.ofNat 11 || c = Char.ofNat 12 || c = Char.ofNat 13

/-- Go strings.TrimSpace on a character list. -/
def trimChars (l : List Char) : List Char :=
  ((l.dropWhile goIsSpace).reverse.dropWhile goIsSpace).reverse

/-- Go strings.TrimSpace. -/
def strTrim (s : String) : String :=
  String.mk (trimChars s.toList)

/-- Go strings.Split with a single-character separator, on character lists.
Split of the empty string yields one empty field, as in Go. -/
def splitOnCharList (sep : Char) : List Char → List (List Char)
  | [] => [[]]
  | c :: t =>
    let r := splitOnCharList sep t
    if c = sep then [] :: r
    else
      match r with
      | [] => [[c]]
      | h :: t2 => (c :: h) :: t2

/-- Go strings.Split with a single-character separator. -/
def strSplit (s : String) (sep : Char) : List String :=
  (splitOnCharList sep s.toList).map String.mk

/-- Does the pattern occur as a contiguous sublist (Go strings.Contains)? -/
def hasSubstrList : List Char → List Char → Bool
  | l, p =>
    if p.isPrefixOf l then true
    else
      match l with
      | [] => false
      | _ :: t => hasSubstrList t p

/-- Go strings.Contains. -/
def strContains (s pat : String) : Bool :=
  hasSubstrList s.toList pat.toList

/-- Go strings.Replace(s, "*", ".*", -1) on a character list: every star
character is replaced by a dot followed by a star. -/
def replaceStarList : List Char → List Char
  | [] => []
  | c :: t => if c = '*' then '.' :: '*' :: replaceStarList t else c :: replaceStarList t

/-- Go strings.Replace(pattern, "*", ".*", -1) as used in validateIndices. -/
def replaceStar (s : String) : String :=
  String.mk (replaceStarList s.toList)

/-! ## A model of the Go regexp package (RE2 subset)

`regexp.MatchString(pattern, s)` reports whether the compiled pattern matches
some substring of `s`, and returns an error when the pattern does not compile.
The syntax subset modelled: literal characters, the dot, character classes,
grouping, alternation, and the star, plus and question-mark repetition
operators with the RE2 rejection of a repetition operator that has no operand
and of directly nested repetition operators. -/

/-- One item of a character class: a single character or an inclusive range. -/
inductive ClsItem
  | single (c : Char)
  | range (lo hi : Char)
deriving DecidableEq

/-- Regular expressions (semantic form, after parsing). -/
inductive Regex
  | void
  | eps
  | lit (c : Char)
  | anyc
  | cls (neg : Bool) (items : List ClsItem)
  | seq (a b : Regex)
  | alt (a b : Regex)
  | star (a : Regex)
deriving DecidableEq

/-- Does a class item match a character? -/
def clsItemMatch (c : Char) : ClsItem → Bool
  | .single a => a = c
  | .range lo hi => decide (lo ≤ c) && decide (c ≤ hi)

/-- Does a (possibly negated) character class match a character? -/
def clsMatch (neg : Bool) (items : List ClsItem) (c : Char) : Bool :=
  let m := items.any (clsItemMatch c)
  if neg then !m else m

/-- Does the regex accept the empty string? -/
def nullable : Regex → Bool
  | .void => false
  | .eps => true
  | .lit _ => false
  | .anyc => false
  | .cls _ _ => false
  | .seq a b => nullable a && nullable b
  | .alt a b => nullable a || nullable b
  | .star _ => true

/-- Brzozowski derivative of a regex by a character.  The dot does not match a
newline, as in RE2 without the s flag. -/
def deriv : Regex → Char → Regex
  | .void, _ => .void
  | .eps, _ => .void
  | .lit a, c => if a = c then .eps else .void
  | .anyc, c => if c = '\n' then .void else .eps
  | .cls neg items, c => if clsMatch neg items c then .eps else .void
  | .seq a b, c =>
    if nullable a then .alt (.seq (deriv a c) b) (deriv b c)
    else .seq (deriv a c) b
  | .alt a b, c => .alt (deriv a c) (deriv b c)
  | .star a, c => .seq (deriv a c) (.star a)

/-- Does the regex match some prefix of the character list? -/
def matchesPref : Regex → List Char → Bool
  | r, [] => nullable r
  | r, c :: t => nullable r || matchesPref (deriv r c) t

/-- Does the regex match some substring (some prefix of some suffix)? -/
def matchesSub : Regex → List Char → Bool
  | r, [] => nullable r
  | r, c :: t => matchesPref r (c :: t) || matchesSub r t

/-- Errors reported when a pattern fails to compile. -/
inductive RegexErr
  | missingRepeatArg
  | nestedRepeat
  | missingParen
  | unexpectedParen
  | trailingBackslash
  | invalidEscape
  | missingClassBracket
  | fuelExhausted
deriving DecidableEq

/-- Rendering of a compile error, standing in for the text of err.Error() in Go. -/
def regexErrMessage : RegexErr → String
  | .missingRepeatArg => "error parsing regexp: missing argument to repetition operator"
  | .nestedRepeat => "error parsing regexp: invalid nested repetition operator"
  | .missingParen => "error parsing regexp: missing closing )"
  | .unexpectedParen => "error parsing regexp: unexpected )"
  | .trailingBackslash => "error parsing regexp: trailing backslash at end of expression"
  | .invalidEscape => "error parsing regexp: invalid escape sequence"
  | .missingClassBracket => "error parsing regexp: missing closing ]"
  | .fuelExhausted => "error parsing regexp: expression too large"

/-- Meaning of an escaped character outside a character class. -/
def escRegex (c : Char) : Except RegexErr Regex :=
  if c = 'n' then .ok (.lit '\n')
  else if c = 't' then .ok (.lit '\t')
  else if c = 'r' then .ok (.lit (Char.ofNat 13))
  else if c = 'f' then .ok (.lit (Char.ofNat 12))
  else if c = 'v' then .ok (.lit (Char.ofNat 11))
  else if c = 'a' then .ok (.lit (Char.ofNat 7))
  else if c = 'd' then .ok (.cls false [.range '0' '9'])
  else if c = 'D' then .ok (.cls true [.range '0' '9'])
  else if c = 's' then .ok (.cls false [.single ' ', .range (Char.ofNat 9) (Char.ofNat 13)])
  else if c = 'S' then .ok (.cls true [.single ' ', .range (Char.ofNat 9) (Char.ofNat 13)])
  else if c = 'w' then .ok (.cls false [.range 'a' 'z', .range 'A' 'Z', .range '0' '9', .single '_'])
  else if c = 'W' then .ok (.cls true [.range 'a' 'z', .range 'A' 'Z', .range '0' '9', .single '_'])
  else if c.isAlphanum then .error .invalidEscape
  else .ok (.lit c)

/-- Parse the items of a character class up to the closing bracket. -/
def parseClassItems : List Char → Except RegexErr (List ClsItem × List Char)
  | [] => .error .missingClassBracket
  | ']' :: t => .ok ([], t)
  | '\\' :: rest =>
    match rest with
    | [] => .error .trailingBackslash
    | c :: t =>
      match parseClassItems t with
      | .error e => .error e
      | .ok (is, r) => .ok (.single c :: is, r)
  | c :: '-' :: d :: t =>
    if d = ']' then .ok ([.single c, .single '-'], t)
    else
      match parseClassItems t with
      | .error e => .error e
      | .ok (is, r) => .ok (.range c d :: is, r)
  | c :: t =>
    match parseClassItems t with
    | .error e => .error e
    | .ok (is, r) => .ok (.single c :: is, r)

/-- Parse a character class following the opening bracket; an empty class is an
error, as in RE2. -/
def parseClass (l : List Char) : Except RegexErr (Regex × List Char) :=
  match l with
  | '^' :: t =>
    match t with
    | ']' :: _ => .error .missingClassBracket
    | _ =>
      match parseClassItems t with
      | .error e => .error e
      | .ok (items, rest) => .ok (.cls true items, rest)
  | ']' :: _ => .error .missingClassBracket
  | _ =>
    match parseClassItems l with
    | .error e => .error e
    | .ok (items, rest) => .ok (.cls false items, rest)

/-- Is the character a repetition operator? -/
def isRepeatOp (c : Char) : Bool :=
  c = '*' || c = '+' || c = '?'

/-- After a repetition operator, accept one optional lazy marker and reject a
directly following repetition operator, as RE2 does. -/
def postfixCheck (r : Regex) (t : List Char) : Except RegexErr (Regex × List Char) :=
  match t with
  | '?' :: t2 =>
    match t2 with
    | c :: _ => if isRepeatOp c then .error .nestedRepeat else .ok (r, t2)
    | [] => .ok (r, t2)
  | c :: _ => if isRepeatOp c then .error .nestedRepeat else .ok (r, t)
  | [] => .ok (r, t)

mutual

/-- Parse an alternation (the whole grammar at this nesting level). -/
def parseAlt : Nat → List Char → Except RegexErr (Regex × List Char)
  | 0, _ => .error .fuelExhausted
  | Nat.succ n, l =>
    match parseConcat n l with
    | .error e => .error e
    | .ok (r, rest) =>
      match rest with
      | '|' :: rest2 =>
        match parseAlt n rest2 with
        | .error e => .error e
        | .ok (r2, rest3) => .ok (.alt r r2, rest3)
      | _ => .ok (r, rest)

/-- Parse a (possibly empty) concatenation of repeated atoms. -/
def parseConcat : Nat → List Char → Except RegexErr (Regex × List Char)
  | 0, _ => .error .fuelExhausted
  | Nat.succ n, l =>
    match l with
    | [] => .ok (.eps, [])
    | ')' :: _ => .ok (.eps, l)
    | '|' :: _ => .ok (.eps, l)
    | _ =>
      match parseRepeat n l with
      | .error e => .error e
      | .ok (r, rest) =>
        match parseConcat n rest with
        | .error e => .error e
        | .ok (r2, rest2) => .ok (.seq r r2, rest2)

/-- Parse one atom together with an optional repetition operator. -/
def parseRepeat : Nat → List Char → Except RegexErr (Regex × List Char)
  | 0, _ => .error .fuelExhausted
  | Nat.succ n, l =>
    match parseAtom n l with
    | .error e => .error e
    | .ok (r, rest) =>
      match rest with
      | '*' :: t => postfixCheck (.star r) t
      | '+' :: t => postfixCheck (.seq r (.star r)) t
      | '?' :: t => postfixCheck (.alt r .eps) t
      | _ => .ok (r, rest)

/-- Parse a single atom: a group, the dot, a class, an escape or a literal.
A repetition operator with no operand is an error, so the bare star pattern
does not compile — exactly as in the Go regexp package. -/
def parseAtom : Nat → List Char → Except RegexErr (Regex × List Char)
  | 0, _ => .error .fuelExhausted
  | Nat.succ n, l =>
    match l with
    | [] => .error .missingRepeatArg
    | '(' :: t =>
      match parseAlt n t with
      | .error e => .error e
      | .ok (r, rest) =>
        match rest with
        | ')' :: rest2 => .ok (r, rest2)
        | _ => .error .missingParen
    | '.' :: t => .ok (.anyc, t)
    | '[' :: t => parseClass t
    | '\\' :: t =>
      match t with
      | [] => .error .trailingBackslash
      | c :: t2 =>
        match escRegex c with
        | .error e => .error e
        | .ok r => .ok (r, t2)
    | c :: t =>
      if isRepeatOp c then .error .missingRepeatArg
      else .ok (.lit c, t)

end

/-- Compile a pattern string; leftover input can only start with an unmatched
closing parenthesis. -/
def parseRegex (pat : String) : Except RegexErr Regex :=
  match parseAlt (4 * pat.length + 16) pat.toList with
  | .error e => .error e
  | .ok (r, []) => .ok r
  | .ok (_, _) => .error .unexpectedParen

/-- Model of Go regexp.MatchString(pattern, s): an error when the pattern does
not compile, otherwise whether the pattern matches some substring of s. -/
def matchString (pat s : String) : Except RegexErr Bool :=
  match parseRegex pat with
  | .error e => .error e
  | .ok r => .ok (matchesSub r s.toList)

/-! ## ACL and Operation enumerations

Modelled from the spec: the acl and op packages are not part of the provided
sources; the spec fixes Operation as the enumeration Read/Write/Delete and
describes ACL as an enumerated category with members including index-admin,
search, bulk, streaming and miscellaneous, the middleware using the streaming
and miscellaneous members explicitly. -/

/-- Modelled from the spec: the enumerated access-control category of the acl
package (a representative set of members; the middleware refers to the
streaming and miscellaneous members by name). -/
inductive ACL
  | indexAdmin
  | docs
  | search
  | bulk
  | streams
  | misc
deriving DecidableEq

/-- Modelled from the spec: printable name of an ACL, standing in for the Go
String method of the acl package. -/
def aclName : ACL → String
  | .indexAdmin => "index_admin"
  | .docs => "docs"
  | .search => "search"
  | .bulk => "bulk"
  | .streams => "streams"
  | .misc => "misc"

/-- Modelled from the spec: the enumerated operation kind of the op package. -/
inductive Operation
  | Read
  | Write
  | Delete
deriving DecidableEq

/-- Modelled from the spec: printable name of an Operation. -/
def opName : Operation → String
  | .Read => "read"
  | .Write => "write"
  | .Delete => "delete"

/-! ## The User entity (src/internal/types/user/user.go) -/

/-- The User struct of user.go.  The nil-able Go pointer and slices become
Options: none models a nil pointer or nil slice, distinct from an empty
slice. -/
structure User where
  UserId : String
  Password : String
  IsAdmin : Option Bool
  ACLs : Option (List ACL)
  Email : String
  Ops : Option (List Operation)
  Indices : Option (List String)
deriving DecidableEq

/-- The loop body of User.CanAccessIndex: scan the stored patterns in order;
return the error of the first pattern that fails to compile, true at the first
pattern that matches, false when the list is exhausted. -/
def canAccessPatterns : List String → String → Except RegexErr Bool
  | [], _ => .ok false
  | p :: ps, name =>
    match matchString p name with
    | .error e => .error e
    | .ok true => .ok true
    | .ok false => canAccessPatterns ps name

/-- User.CanAccessIndex from user.go: ranging over a nil slice performs no
iterations, so a none Indices field behaves as the empty pattern list. -/
def User.CanAccessIndex (u : User) (name : String) : Except RegexErr Bool :=
  canAccessPatterns (u.Indices.getD []) name

/-- A value stored in the patch mapping built by User.GetPatch. -/
inductive FieldValue
  | str (s : String)
  | flag (b : Bool)
  | aclList (l : List ACL)
  | opList (l : List Operation)
  | strList (l : List String)
deriving DecidableEq

/-- User.GetPatch from user.go: the patch mapping, modelled as the association
list of key/value pairs inserted, in the insertion order of the source.  A
field at its zero value (empty string, nil pointer, nil slice) contributes no
entry. -/
def User.GetPatch (u : User) : List (String × FieldValue) :=
  (if u.UserId ≠ "" then [("user_id", FieldValue.str u.UserId)] else []) ++
  (if u.Password ≠ "" then [("password", FieldValue.str u.Password)] else []) ++
  (match u.IsAdmin with
   | some b => [("is_admin", FieldValue.flag b)]
   | none => []) ++
  (if u.Email ≠ "" then [("email", FieldValue.str u.Email)] else []) ++
  (match u.ACLs with
   | some l => [("acls", FieldValue.aclList l)]
   | none => []) ++
  (match u.Ops with
   | some l => [("ops", FieldValue.opList l)]
   | none => []) ++
  (match u.Indices with
   | some l => [("indices", FieldValue.strList l)]
   | none => [])

/-- A user entity carrying only a user id and a stored pattern list, every
other field left at its default — the shape of the entities the resource
claims quantify over. -/
def mkUser (inds : List String) : User :=
  { UserId := "u", Password := "", IsAdmin := none, ACLs := none, Email := "",
    Ops := none, Indices := some inds }

/-- The delta entity with only the email field set. -/
def emailOnlyUser : User :=
  { UserId := "", Password := "", IsAdmin := none, ACLs := none, Email := "e@x",
    Ops := none, Indices := none }

/-! ## The Permission entity consulted by the enforcement filters

Modelled from the spec: the permission package is not part of the provided
sources.  The spec describes one permission entity model whose capability
checks hasACL, canDo and canAccessResource are exactly the methods HasACL,
Can and CanAccessIndex implemented in user.go, and the claims cite user.go for
those methods; the middleware additionally reads the Username and Indices
fields of the entity. -/

/-- Modelled from the spec: the permission entity resolved for the caller,
with the fields the middleware reads. -/
structure Permission where
  Username : String
  ACLs : List ACL
  Ops : List Operation
  Indices : List String
deriving DecidableEq

/-- Membership of an ACL in the granted set (user.go HasACL). -/
def Permission.HasACL (p : Permission) (a : ACL) : Bool :=
  p.ACLs.any (fun x => x = a)

/-- Membership of an operation in the granted set (user.go Can). -/
def Permission.CanDo (p : Permission) (o : Operation) : Bool :=
  p.Ops.any (fun x => x = o)

/-- The canAccessResource check of the permission entity: identical to
User.CanAccessIndex of user.go, over the pattern list of the entity. -/
def Permission.CanAccessIndex (p : Permission) (name : String) : Except RegexErr Bool :=
  canAccessPatterns p.Indices name

/-! ## The enforcement filters (src/plugins/es/middleware.go) -/

/-- Observable outcome of one filter: either the next handler is invoked, or a
response with an HTTP status code and body is written and the chain stops. -/
inductive FilterResult
  | next
  | respond (status : Nat) (body : String)
deriving DecidableEq

/-- A single-quote character, used inside response messages. -/
def sq : String := String.singleton (Char.ofNat 39)

/-- validateACL from middleware.go: the request ACL is read from the request
context first, then the permission; a missing value yields a 500 with a
generic message, a failed HasACL check yields a 401 naming the ACL. -/
def validateACL (ctxACL : Option ACL) (ctxPerm : Option Permission) : FilterResult :=
  match ctxACL with
  | none => .respond 500 "An error occurred while validating request acl"
  | some a =>
    match ctxPerm with
    | none => .respond 500 "An error occurred while validating request acl"
    | some p =>
      if p.HasACL a then .next
      else .respond 401
        ("permission with username=" ++ p.Username ++ " does not have " ++ sq ++ aclName a ++ sq ++ " acl")

/-- validateOp from middleware.go, same shape as validateACL. -/
def validateOp (ctxOp : Option Operation) (ctxPerm : Option Permission) : FilterResult :=
  match ctxOp with
  | none => .respond 500 "An error occurred while validating request op"
  | some o =>
    match ctxPerm with
    | none => .respond 500 "An error occurred while validating request op"
    | some p =>
      if p.CanDo o then .next
      else .respond 401
        ("permission with username=" ++ p.Username ++ " does not have " ++ sq ++ opName o ++ sq ++ " operation")

/-- The inner loop of validateIndices over the stored patterns for one resolved
index name: every pattern, with each star replaced by dot-star, must match; the
first compile error or failed match produces a 401 response. -/
def checkName (name : String) : List String → Option FilterResult
  | [] => none
  | pat :: ps =>
    let pat2 := replaceStar pat
    match matchString pat2 name with
    | .error _ => some (.respond 401 ("invalid index pattern encountered " ++ pat2))
    | .ok false => some (.respond 401 ("User is unauthorized to access index " ++ name))
    | .ok true => checkName name ps

/-- The outer loop of validateIndices over the resolved index names. -/
def checkAll (pats : List String) : List String → FilterResult
  | [] => .next
  | n :: ns =>
    match checkName n pats with
    | some r => r
    | none => checkAll pats ns

/-- validateIndices from middleware.go: the permission is read from the request
context first, then the resolved index list; a missing value yields a 500.  An
empty index list is a cluster-level route, gated by CanAccessIndex at the name
star (an error yields a 400 with the error text, a false result a 401).  A
non-empty list runs the nested pattern loops. -/
def validateIndices (ctxPerm : Option Permission) (ctxIndices : Option (List String)) : FilterResult :=
  match ctxPerm with
  | none => .respond 500 "An error occurred while validating request indices"
  | some p =>
    match ctxIndices with
    | none => .respond 500 "Internal server error"
    | some indices =>
      if indices.length = 0 then
        match p.CanAccessIndex "*" with
        | .error e => .respond 400 (regexErrMessage e)
        | .ok false => .respond 401 "User is unauthorized to access cluster level routes"
        | .ok true => .next
      else
        checkAll p.Indices indices

/-! ## The classifier (src/plugins/es/middleware.go) -/

/-- getOp from middleware.go: the operation derived from the request method and
the accepted methods of the matched spec. -/
def getOp (methods : List String) (method : String) : Operation :=
  if method = "GET" then .Read
  else if method = "POST" then
    (if "GET" ∈ methods then .Read else .Write)
  else if method = "PUT" then .Write
  else if method = "HEAD" then .Read
  else if method = "DELETE" then .Delete
  else .Read

/-- Go strings.HasPrefix(token, underscore). -/
def startsWithUnderscore (s : String) : Bool :=
  match s.toList with
  | [] => false
  | c :: _ => c = '_'

/-- The loop of matchKeywords: count the path segments starting with an
underscore; finding one in the keyword set matches immediately; otherwise the
spec matches only if no such segment exists. -/
def matchKeywordsLoop (keywords : List String) : List String → Nat → Bool
  | [], count => count = 0
  | t :: ts, count =>
    if startsWithUnderscore t then
      (if t ∈ keywords then true else matchKeywordsLoop keywords ts (count + 1))
    else matchKeywordsLoop keywords ts count

/-- matchKeywords from middleware.go. -/
def matchKeywords (keywords : List String) (path : String) : Bool :=
  matchKeywordsLoop keywords (strSplit path '/') 0

/-- One comma-separated path segment split into trimmed index names. -/
def splitTrim (seg : String) : List String :=
  (strSplit seg ',').map strTrim

/-- The loop of getIndexName: i counts up from 0 while the fuel counts down
from the bound of the source loop, which is the LENGTH OF THE REQUEST PATH
STRING, not the number of path segments; the token arrays are indexed
fallibly, an out-of-range access modelling the Go runtime panic. -/
def idxLoop (et rt : List String) : Nat → Nat → Except String (List String)
  | _, 0 => .ok []
  | i, Nat.succ fuel =>
    match et[i]? with
    | none => .error "runtime error: index out of range"
    | some tok =>
      if tok = "{index}" then
        match rt[i]? with
        | none => .error "runtime error: index out of range"
        | some seg => .ok (splitTrim seg)
      else idxLoop et rt (i + 1) fuel

/-- getIndexName from middleware.go: empty result when the endpoint carries no
placeholder or the segment counts differ; otherwise the loop above, bounded by
the string length of the request path as in the source. -/
def getIndexName (endpoint requestPath : String) : Except String (List String) :=
  if strContains endpoint "{index}" = false then .ok []
  else
    let endpointTokens := strSplit endpoint '/'
    let requestPathTokens := strSplit requestPath '/'
    if endpointTokens.length ≠ requestPathTokens.length then .ok []
    else idxLoop endpointTokens requestPathTokens 0 requestPath.length

/-- One registered endpoint spec as the middleware iterates it: the
endpoint-pattern pairs of the spec (a Go map, modelled as an association
list), the accepted methods, the ACL category and the keyword set. -/
structure Api where
  pathRegexps : List (String × String)
  methods : List String
  acl : ACL
  keywords : List String

/-- The inner loop of categorize over the endpoint/pattern pairs of one spec: a
pattern that fails to compile is skipped; the first pattern that matches the
path, with the method accepted and the keywords matching, classifies the
request. -/
def catInner (methods : List String) (aclv : ACL) (kw : List String)
    (method path : String) : List (String × String) → Option (Except String (ACL × Operation × List String))
  | [] => none
  | (endpoint, pattern) :: rest =>
    match matchString pattern path with
    | .error _ => catInner methods aclv kw method path rest
    | .ok ok =>
      if ok && decide (method ∈ methods) && matchKeywords kw path then
        some ((getIndexName endpoint path).map (fun idx => (aclv, getOp methods method, idx)))
      else catInner methods aclv kw method path rest

/-- categorize from middleware.go: the first spec whose inner loop matches
wins; with no match the fail-safe default (misc, Read, empty list) is
returned. -/
def categorize (specs : List Api) (method path : String) : Except String (ACL × Operation × List String) :=
  match specs with
  | [] => .ok (.misc, .Read, [])
  | api :: rest =>
    match catInner api.methods api.acl api.keywords method path api.pathRegexps with
    | some r => r
    | none => categorize rest method path

/-! ## Helper lemmas -/

/-- The pattern scan of CanAccessIndex returns true exactly when some stored
pattern matches the name and every pattern stored before it compiles and fails
to match. -/
theorem canAccessPatterns_eq_ok_true_iff (ps : List String) (n : String) :
    canAccessPatterns ps n = .ok true ↔
      ∃ l1 p l2, ps = l1 ++ p :: l2 ∧ (∀ q ∈ l1, matchString q n = .ok false) ∧
        matchString p n = .ok true := by
  induction ps with
  | nil =>
    constructor
    · intro h; exact absurd h (by simp [canAccessPatterns])
    · rintro ⟨l1, p, l2, h, -, -⟩
      cases l1 <;> simp at h
  | cons p ps ih =>
    constructor
    · intro h
      rw [canAccessPatterns] at h
      rcases hm : matchString p n with e | b
      · rw [hm] at h; exact absurd h (by simp)
      · rcases b with _ | _
        · rw [hm] at h
          obtain ⟨l1, q, l2, heq, hall, hq⟩ := ih.mp h
          refine ⟨p :: l1, q, l2, by simp [heq], ?_, hq⟩
          intro r hr
          rcases List.mem_cons.mp hr with rfl | hr2
          · exact hm
          · exact hall r hr2
        · exact ⟨[], p, ps, rfl, by simp, hm⟩
    · rintro ⟨l1, q, l2, heq, hall, hq⟩
      rcases l1 with _ | ⟨a, l1⟩
      · simp at heq
        obtain ⟨h1, h2⟩ := heq
        rw [canAccessPatterns, h1, hq]
      · simp at heq
        obtain ⟨h1, h2⟩ := heq
        have hp : matchString p n = .ok false := by
          rw [h1]; exact hall a (by simp)
        rw [canAccessPatterns, hp]
        exact ih.mpr ⟨l1, q, l2, h2, fun r hr => hall r (by simp [hr]), hq⟩

/-- The pattern scan of CanAccessIndex returns an error exactly when some
stored pattern fails to compile with that error and every pattern stored
before it compiles and fails to match. -/
theorem canAccessPatterns_eq_error_iff (ps : List String) (n : String) (e : RegexErr) :
    canAccessPatterns ps n = .error e ↔
      ∃ l1 p l2, ps = l1 ++ p :: l2 ∧ (∀ q ∈ l1, matchString q n = .ok false) ∧
        matchString p n = .error e := by
  induction ps with
  | nil =>
    constructor
    · intro h; exact absurd h (by simp [canAccessPatterns])
    · rintro ⟨l1, p, l2, h, -, -⟩
      cases l1 <;> simp at h
  | cons p ps ih =>
    constructor
    · intro h
      rw [canAccessPatterns] at h
      rcases hm : matchString p n with e2 | b
      · rw [hm] at h
        simp at h
        exact ⟨[], p, ps, rfl, by simp, by rw [hm, h]⟩
      · rcases b with _ | _
        · rw [hm] at h
          obtain ⟨l1, q, l2, heq, hall, hq⟩ := ih.mp h
          refine ⟨p :: l1, q, l2, by simp [heq], ?_, hq⟩
          intro r hr
          rcases List.mem_cons.mp hr with rfl | hr2
          · exact hm
          · exact hall r hr2
        · rw [hm] at h; exact absurd h (by simp)
    · rintro ⟨l1, q, l2, heq, hall, hq⟩
      rcases l1 with _ | ⟨a, l1⟩
      · simp at heq
        obtain ⟨h1, h2⟩ := heq
        rw [canAccessPatterns, h1, hq]
      · simp at heq
        obtain ⟨h1, h2⟩ := heq
        have hp : matchString p n = .ok false := by
          rw [h1]; exact hall a (by simp)
        rw [canAccessPatterns, hp]
        exact ih.mpr ⟨l1, q, l2, h2, fun r hr => hall r (by simp [hr]), hq⟩

/-- The inner validateIndices loop passes a name exactly when every stored
pattern, stars replaced, compiles and matches the name. -/
theorem checkName_eq_none_iff (name : String) (pats : List String) :
    checkName name pats = none ↔
      ∀ pat ∈ pats, matchString (replaceStar pat) name = .ok true := by
  induction pats with
  | nil => simp [checkName]
  | cons p ps ih =>
    rw [checkName]
    rcases hm : matchString (replaceStar p) name with e | b
    · simp only [hm]
      constructor
      · intro h; exact absurd h (by simp)
      · intro h
        have := h p (by simp)
        rw [hm] at this; exact absurd this (by simp)
    · rcases b with _ | _
      · simp only [hm]
        constructor
        · intro h; exact absurd h (by simp)
        · intro h
          have := h p (by simp)
          rw [hm] at this; exact absurd this (by simp)
      · simp only [hm]
        rw [ih]
        constructor
        · intro h q hq
          rcases List.mem_cons.mp hq with rfl | hq2
          · exact hm
          · exact h q hq2
        · intro h q hq
          exact h q (by simp [hq])

/-- The inner validateIndices loop either passes or responds 401. -/
theorem checkName_none_or_401 (name : String) (pats : List String) :
    checkName name pats = none ∨ ∃ msg, checkName name pats = some (.respond 401 msg) := by
  induction pats with
  | nil => exact Or.inl rfl
  | cons p ps ih =>
    rw [checkName]
    rcases hm : matchString (replaceStar p) name with e | b
    · exact Or.inr ⟨_, rfl⟩
    · rcases b with _ | _
      · exact Or.inr ⟨_, rfl⟩
      · exact ih

/-- The outer validateIndices loop invokes the next handler exactly when every
resolved name passes the inner loop. -/
theorem checkAll_eq_next_iff (pats : List String) (ns : List String) :
    checkAll pats ns = .next ↔ ∀ n ∈ ns, checkName n pats = none := by
  induction ns with
  | nil => simp [checkAll]
  | cons n ns ih =>
    rw [checkAll]
    rcases hc : checkName n pats with _ | r
    · rw [ih]
      constructor
      · intro h q hq
        rcases List.mem_cons.mp hq with rfl | hq2
        · exact hc
        · exact h q hq2
      · intro h q hq
        exact h q (by simp [hq])
    · rcases checkName_none_or_401 n pats with h | ⟨msg, h⟩
      · rw [h] at hc; exact absurd hc (by simp)
      · rw [h] at hc
        injection hc with hc
        constructor
        · intro hn
          rw [← hc] at hn
          exact absurd hn (by simp)
        · intro hall
          have := hall n (by simp)
          rw [this] at h
          exact absurd h (by simp)

/-- When some resolved name fails the inner loop, the outer loop responds
401. -/
theorem checkAll_401_of_not_all (pats : List String) (ns : List String)
    (h : ¬ ∀ n ∈ ns, checkName n pats = none) :
    ∃ msg, checkAll pats ns = .respond 401 msg := by
  induction ns with
  | nil => exact absurd (by simp) h
  | cons n ns ih =>
    rw [checkAll]
    rcases hc : checkName n pats with _ | r
    · refine ih ?_
      intro hall
      exact h (fun q hq => by
        rcases List.mem_cons.mp hq with rfl | hq2
        · exact hc
        · exact hall q hq2)
    · rcases checkName_none_or_401 n pats with h2 | ⟨msg, h2⟩
      · rw [h2] at hc; exact absurd hc (by simp)
      · rw [h2] at hc
        injection hc with hc
        exact ⟨msg, by rw [← hc]⟩

/-- The inner categorize loop finds nothing when no endpoint pattern of the
spec matches the request. -/
theorem catInner_eq_none (methods : List String) (aclv : ACL) (kw : List String)
    (method path : String) (l : List (String × String))
    (h : ∀ ep ∈ l, ¬(matchString ep.2 path = .ok true ∧ method ∈ methods ∧
          matchKeywords kw path = true)) :
    catInner methods aclv kw method path l = none := by
  induction l with
  | nil => rfl
  | cons ep rest ih =>
    obtain ⟨endpoint, pattern⟩ := ep
    rw [catInner]
    rcases hm : matchString pattern path with e | b
    · simp only [hm]
      exact ih (fun q hq => h q (by simp [hq]))
    · have hcond : (b && decide (method ∈ methods) && matchKeywords kw path) = false := by
        rcases b with _ | _
        · simp
        · by_cases hmem : method ∈ methods
          · by_cases hk : matchKeywords kw path = true
            · exact absurd ⟨hm, hmem, hk⟩ (h (endpoint, pattern) (by simp))
            · simp [hk]
          · simp [hmem]
      simp only [hm, hcond, Bool.false_eq_true, if_false]
      exact ih (fun q hq => h q (by simp [hq]))

/-- Membership of a key/value pair in one conditional block of the patch. -/
theorem mem_pair_block (k : String) (v : FieldValue) (key : String) (w : FieldValue)
    (c : Prop) [Decidable c] :
    ((k, v) ∈ if c then [(key, w)] else []) ↔ (c ∧ k = key ∧ v = w) := by
  split <;> simp_all [Prod.ext_iff]

/-- Membership of a key in one conditional block of the patch. -/
theorem mem_fst_block (k key : String) (v : FieldValue) (c : Prop) [Decidable c] :
    (k ∈ (if c then [(key, v)] else []).map Prod.fst) ↔ (c ∧ k = key) := by
  split <;> simp_all

/-! ## Claim theorems -/

/-- C1: the claim says CanAccessIndex on an entity whose patterns include the
literal star returns true for every non-empty resource name.  The code instead
treats the stored pattern as a raw regular expression: the bare star does not
compile, so the scan aborts with an error when it reaches that pattern — here
evaluated at the entity whose only pattern is the star and the non-empty name
a. -/
theorem canAccessIndex_star_pattern_errors :
    (mkUser ["*"]).CanAccessIndex "a" = .error .missingRepeatArg := by decide

/-- C2 counterexample: the claim says CanAccessIndex returns an error whenever
any stored pattern is invalid, and returns true iff any pattern matches.  Both
directions fail at concrete inputs: with patterns [a, star] and name a the scan
returns true although the star pattern is invalid, and with patterns [star, a]
it returns an error although the pattern a matches. -/
theorem canAccessIndex_or_error_cex :
    ((mkUser ["a", "*"]).CanAccessIndex "a" = .ok true
      ∧ matchString "*" "a" = .error .missingRepeatArg)
    ∧ ((mkUser ["*", "a"]).CanAccessIndex "a" = .error .missingRepeatArg
      ∧ matchString "a" "a" = .ok true) := by
  exact ⟨⟨by decide, by decide⟩, by decide, by decide⟩

/-- C2 amended: CanAccessIndex scans the stored patterns in order and stops at
the first hit — it returns true exactly when some pattern matches the name and
every pattern stored before it compiles and fails to match, and returns an
error exactly when some pattern fails to compile and every pattern stored
before it compiles and fails to match. -/
theorem canAccessIndex_first_hit (u : User) (name : String) :
    (u.CanAccessIndex name = .ok true ↔
      ∃ l1 p l2, u.Indices.getD [] = l1 ++ p :: l2 ∧
        (∀ q ∈ l1, matchString q name = .ok false) ∧ matchString p name = .ok true)
    ∧ (∀ e, u.CanAccessIndex name = .error e ↔
      ∃ l1 p l2, u.Indices.getD [] = l1 ++ p :: l2 ∧
        (∀ q ∈ l1, matchString q name = .ok false) ∧ matchString p name = .error e) :=
  ⟨canAccessPatterns_eq_ok_true_iff _ _, fun e => canAccessPatterns_eq_error_iff _ _ e⟩

/-- C2 witness: the amended theorem applied at the entity with the single
pattern prod-dot-star and the name prod-1. -/
theorem canAccessIndex_first_hit_witness :
    (mkUser ["prod-.*"]).CanAccessIndex "prod-1" = .ok true :=
  (canAccessIndex_first_hit (mkUser ["prod-.*"]) "prod-1").1.mpr
    ⟨[], "prod-.*", [], rfl, by simp, by decide⟩

/-- C3: on a non-empty resolved resource list the Resource filter allows the
request exactly when every stored pattern (stars replaced by dot-star) matches
every resolved name — AND across patterns — and responds 401 whenever that
fails; in particular the entity with patterns prod-dot-star and
staging-dot-star is denied for the resource list [prod-1] although
CanAccessIndex at prod-1 is true under its OR semantics. -/
theorem validateIndices_and_semantics :
    (∀ (p : Permission) (ns : List String), ns ≠ [] →
      ((validateIndices (some p) (some ns) = .next ↔
         ∀ n ∈ ns, ∀ pat ∈ p.Indices, matchString (replaceStar pat) n = .ok true)
       ∧ ((¬ ∀ n ∈ ns, ∀ pat ∈ p.Indices, matchString (replaceStar pat) n = .ok true) →
          ∃ msg, validateIndices (some p) (some ns) = .respond 401 msg)))
    ∧ (validateIndices (some ⟨"u", [], [], ["prod-.*", "staging-.*"]⟩) (some ["prod-1"])
        = .respond 401 "User is unauthorized to access index prod-1"
       ∧ Permission.CanAccessIndex ⟨"u", [], [], ["prod-.*", "staging-.*"]⟩ "prod-1"
        = .ok true) := by
  refine ⟨?_, by decide, by decide⟩
  intro p ns hne
  have hv : validateIndices (some p) (some ns) = checkAll p.Indices ns := by
    simp only [validateIndices]
    rw [if_neg (by simpa using hne)]
  constructor
  · rw [hv, checkAll_eq_next_iff]
    constructor
    · intro h n hn
      exact (checkName_eq_none_iff n p.Indices).mp (h n hn)
    · intro h n hn
      exact (checkName_eq_none_iff n p.Indices).mpr (h n hn)
  · intro hnot
    have h2 : ¬ ∀ n ∈ ns, checkName n p.Indices = none := by
      intro hall
      exact hnot (fun n hn => (checkName_eq_none_iff n p.Indices).mp (hall n hn))
    obtain ⟨msg, hm⟩ := checkAll_401_of_not_all p.Indices ns h2
    exact ⟨msg, by rw [hv]; exact hm⟩

/-- C3 witness: the theorem applied at the entity with the single pattern
dot-star and the resource list [a]. -/
theorem validateIndices_and_semantics_witness :
    validateIndices (some ⟨"u", [], [], [".*"]⟩) (some ["a"]) = .next :=
  ((validateIndices_and_semantics.1 ⟨"u", [], [], [".*"]⟩ ["a"] (by decide)).1).mpr (by decide)

/-- C4 counterexample: the claim says the cluster-level gate (empty resource
list) allows the request iff the patterns of the entity include the literal star.
The entity whose only pattern is the literal star is NOT allowed — the pattern
does not compile, so the filter responds 400 — while the entity whose only
pattern is dot-star is allowed although its patterns do not include the
literal star. -/
theorem validateIndices_cluster_cex :
    (validateIndices (some ⟨"u", [], [], ["*"]⟩) (some [])
        = .respond 400 (regexErrMessage .missingRepeatArg)
      ∧ "*" ∈ Permission.Indices ⟨"u", [], [], ["*"]⟩)
    ∧ (validateIndices (some ⟨"u", [], [], [".*"]⟩) (some []) = .next
      ∧ "*" ∉ Permission.Indices ⟨"u", [], [], [".*"]⟩) := by
  exact ⟨⟨by decide, by decide⟩, by decide, by decide⟩

/-- C4 amended: on an empty resolved resource list the filter allows the
request iff CanAccessIndex over the patterns of the entity at the name star returns
true — that is, some stored pattern regex-matches the name star and every
pattern before it compiles and fails to match; when the scan hits an invalid
pattern the filter responds 400 with the error text, and when the scan returns
false it responds 401 mentioning cluster-level access. -/
theorem validateIndices_cluster_gate (p : Permission) :
    (validateIndices (some p) (some []) = .next ↔
      ∃ l1 pat l2, p.Indices = l1 ++ pat :: l2 ∧
        (∀ q ∈ l1, matchString q "*" = .ok false) ∧ matchString pat "*" = .ok true)
    ∧ (p.CanAccessIndex "*" = .ok false →
        validateIndices (some p) (some [])
          = .respond 401 "User is unauthorized to access cluster level routes")
    ∧ (∀ e, p.CanAccessIndex "*" = .error e →
        validateIndices (some p) (some []) = .respond 400 (regexErrMessage e)) := by
  have hred : validateIndices (some p) (some []) =
      (match p.CanAccessIndex "*" with
       | .error e => .respond 400 (regexErrMessage e)
       | .ok false => .respond 401 "User is unauthorized to access cluster level routes"
       | .ok true => .next) := rfl
  refine ⟨?_, ?_, ?_⟩
  · rw [hred, ← canAccessPatterns_eq_ok_true_iff]
    have hc : canAccessPatterns p.Indices "*" = p.CanAccessIndex "*" := rfl
    rw [hc]
    rcases h : p.CanAccessIndex "*" with e | b
    · simp [h]
    · rcases b with _ | _ <;> simp [h]
  · intro h
    rw [hred, h]
  · intro e h
    rw [hred, h]

/-- C4 witness: the amended theorem applied at the entity with the single
pattern dot-star. -/
theorem validateIndices_cluster_gate_witness :
    validateIndices (some ⟨"u", [], [], [".*"]⟩) (some []) = .next :=
  (validateIndices_cluster_gate ⟨"u", [], [], [".*"]⟩).1.mpr
    ⟨[], ".*", [], rfl, by simp, by decide⟩

/-- C5: the patch mapping built by GetPatch contains exactly the fields whose
value is non-default — each of the seven keys is present iff its field is
non-default, no other key ever appears — and the delta with only the email
field set yields the mapping whose only entry is the email key. -/
theorem getPatch_exact (u : User) :
    emailOnlyUser.GetPatch = [("email", FieldValue.str "e@x")]
    ∧ (∀ k v, (k, v) ∈ u.GetPatch →
        k ∈ ["user_id", "password", "is_admin", "email", "acls", "ops", "indices"])
    ∧ ("user_id" ∈ u.GetPatch.map Prod.fst ↔ u.UserId ≠ "")
    ∧ ("password" ∈ u.GetPatch.map Prod.fst ↔ u.Password ≠ "")
    ∧ ("is_admin" ∈ u.GetPatch.map Prod.fst ↔ u.IsAdmin ≠ none)
    ∧ ("email" ∈ u.GetPatch.map Prod.fst ↔ u.Email ≠ "")
    ∧ ("acls" ∈ u.GetPatch.map Prod.fst ↔ u.ACLs ≠ none)
    ∧ ("ops" ∈ u.GetPatch.map Prod.fst ↔ u.Ops ≠ none)
    ∧ ("indices" ∈ u.GetPatch.map Prod.fst ↔ u.Indices ≠ none) := by
  refine ⟨by decide, ?_⟩
  obtain ⟨uid, pw, adm, acls, em, ops, inds⟩ := u
  cases adm <;> cases acls <;> cases ops <;> cases inds <;>
    simp only [User.GetPatch, List.map_append, List.mem_append, mem_pair_block,
      mem_fst_block, List.map_nil, List.map_cons, List.mem_singleton,
      List.not_mem_nil, List.mem_cons] <;>
    simp <;> intro k v h <;> tauto

/-- C5 witness: the theorem applied at the email-only delta, projecting the
concrete mapping. -/
theorem getPatch_exact_witness :
    emailOnlyUser.GetPatch = [("email", FieldValue.str "e@x")] :=
  (getPatch_exact emailOnlyUser).1

/-- C6: getOp maps GET and HEAD to Read, PUT to Write, DELETE to Delete, POST
to Read when the matched spec also accepts GET and to Write otherwise, and any
other method to Read. -/
theorem getOp_cases (methods : List String) (method : String) :
    getOp methods "GET" = .Read ∧ getOp methods "HEAD" = .Read ∧
    getOp methods "PUT" = .Write ∧ getOp methods "DELETE" = .Delete ∧
    ("GET" ∈ methods → getOp methods "POST" = .Read) ∧
    ("GET" ∉ methods → getOp methods "POST" = .Write) ∧
    (method ≠ "GET" → method ≠ "POST" → method ≠ "PUT" → method ≠ "HEAD" →
      method ≠ "DELETE" → getOp methods method = .Read) := by
  refine ⟨rfl, rfl, rfl, rfl, ?_, ?_, ?_⟩
  · intro h
    simp [getOp, h]
  · intro h
    simp [getOp, h]
  · intro h1 h2 h3 h4 h5
    simp [getOp, h1, h2, h3, h4, h5]

/-- C6 witness: the theorem applied at the POST dual-mode inputs of the spec
and at an unrecognized method. -/
theorem getOp_cases_witness :
    getOp ["GET", "POST"] "POST" = .Read ∧ getOp ["POST"] "POST" = .Write ∧
    getOp ["POST"] "PATCH" = .Read :=
  ⟨(getOp_cases ["GET", "POST"] "PATCH").2.2.2.2.1 (by decide),
   (getOp_cases ["POST"] "PATCH").2.2.2.2.2.1 (by decide),
   (getOp_cases ["POST"] "PATCH").2.2.2.2.2.2 (by decide) (by decide) (by decide)
     (by decide) (by decide)⟩

/-- C7: the spec example holds — pattern slash-placeholder-slash-mapping with
path slash-a-comma-b-slash-mapping extracts [a, b] — but the claimed general
contract fails: the extraction loop is bounded by the LENGTH OF THE REQUEST
PATH STRING while indexing the segment arrays, so with the placeholder inside
a larger pattern segment the function runs off the end of the arrays (a Go
index-out-of-range panic, modelled as an error) instead of returning a
list. -/
theorem getIndexName_loop_bound_panic :
    getIndexName "/{index}/_mapping" "/a,b/_mapping" = .ok ["a", "b"]
    ∧ getIndexName "/x{index}/_m" "/abc/_m" = .error "runtime error: index out of range" := by
  exact ⟨by decide, by decide⟩

/-- C8: a request whose method and path satisfy no registered endpoint spec is
classified with the fail-safe default: the miscellaneous ACL, the Read
operation and the empty resource list — an ordinary result, not an error. -/
theorem categorize_fallback (specs : List Api) (method path : String)
    (h : ∀ api ∈ specs, ∀ ep ∈ api.pathRegexps,
        ¬(matchString ep.2 path = .ok true ∧ method ∈ api.methods ∧
          matchKeywords api.keywords path = true)) :
    categorize specs method path = .ok (.misc, .Read, []) := by
  induction specs with
  | nil => rfl
  | cons api rest ih =>
    rw [categorize]
    rw [catInner_eq_none api.methods api.acl api.keywords method path api.pathRegexps
      (h api (by simp))]
    exact ih (fun a ha => h a (by simp [ha]))

/-- C8 witness: the theorem applied at a registry with one spec that does not
match the request path. -/
theorem categorize_fallback_witness :
    categorize [⟨[("/y", "/y")], ["GET"], .search, []⟩] "GET" "/zzz"
      = .ok (.misc, .Read, []) :=
  categorize_fallback [⟨[("/y", "/y")], ["GET"], .search, []⟩] "GET" "/zzz" (by decide)

/-- C9: an enforcement filter that cannot find its required Classification
Context value — the ACL for validateACL, the Operation for validateOp, the
resolved index list for validateIndices — responds with status 500 (an
internal error), which is never the invocation of the next handler and never a
401 denial. -/
theorem filters_missing_ctx_internal_error :
    (∀ perm : Option Permission, validateACL none perm
        = .respond 500 "An error occurred while validating request acl")
    ∧ (∀ perm : Option Permission, validateOp none perm
        = .respond 500 "An error occurred while validating request op")
    ∧ (∀ perm : Option Permission, ∃ msg, validateIndices perm none = .respond 500 msg)
    ∧ (∀ (status : Nat) (msg : String), FilterResult.respond status msg ≠ .next) := by
  refine ⟨fun _ => rfl, fun _ => rfl, ?_, ?_⟩
  · intro perm
    rcases perm with _ | p
    · exact ⟨_, rfl⟩
    · exact ⟨_, rfl⟩
  · intro status msg h
    cases h

/-- C9 witness: the theorem applied at the empty request context. -/
theorem filters_missing_ctx_internal_error_witness :
    validateACL none none = .respond 500 "An error occurred while validating request acl" :=
  filters_missing_ctx_internal_error.1 none

/-- C10: with a pattern containing the placeholder as a substring of a larger
segment and a path of equal segment count, getIndexName indexes its segment
arrays out of range (the loop is bounded by the path string length, here 6,
against arrays of length 3) — refuting in-bounds access; the two side
conjuncts certify that the input satisfies the hypotheses of the claim. -/
theorem getIndexName_oob_access :
    getIndexName "/{index}x/_y" "/ab/_y" = .error "runtime error: index out of range"
    ∧ strContains "/{index}x/_y" "{index}" = true
    ∧ (strSplit "/ab/_y" '/').length = (strSplit "/{index}x/_y" '/').length := by
  exact ⟨by decide, by decide, by decide⟩

end Arc
